import Mathlib

/-!
Verification of the GAN-Anomaly repository's calibration, training-loop,
scoring and serving-layer behaviour, over a shallow embedding.

Real-valued quantities (scores, losses, weights, percentages) are modelled
as rationals.  The Python training/scoring core (the GANAnomaly library) is
not shipped in this repository snapshot — the documentation only quotes
fragments of it — so those components are modelled from the specification,
as marked on each definition.  The TypeScript serving pages (Admin.tsx,
Dashboard.tsx) are embedded directly from their source.
-/

namespace GanAnomaly

/-! ### Labels -/

inductive Label where
  | NORMAL : Label
  | ANOMALY : Label
deriving DecidableEq, Repr

/-! ### Calibrator (spec §4.5) -/

/-- Modelled from the spec: the classification half of
`threshold(scores, percentile)` — the Calibrator implementation is not under
src/ (the docs only quote `np.percentile(prob, 95)`).  Per the spec, every
record whose score is ≥ the cutoff is labeled ANOMALY, else NORMAL. -/
def classify (c : ℚ) (s : ℚ) : Label :=
  if c ≤ s then Label.ANOMALY else Label.NORMAL

/-- Modelled from the spec: classify every score of a batch against a cutoff. -/
def classifyBatch (scores : List ℚ) (c : ℚ) : List Label :=
  scores.map (classify c)

/-- Minimum of the nonempty list `x :: xs`, as a fold. -/
def listMin (x : ℚ) (xs : List ℚ) : ℚ := xs.foldr min x

/-- Maximum of the nonempty list `x :: xs`, as a fold. -/
def listMax (x : ℚ) (xs : List ℚ) : ℚ := xs.foldr max x

/-- Modelled from the spec: `normalize(raw_scores) → scores in [0,1]` by
min-max scaling over the batch being scored; the Calibrator implementation
is not under src/.  For a degenerate batch (all raw scores equal) the spec
allows the fallback all-0 or all-0.5; the all-0 fallback is modelled. -/
def normalize (raw : List ℚ) : List ℚ :=
  match raw with
  | [] => []
  | x :: xs =>
    let lo := listMin x xs
    let hi := listMax x xs
    if hi = lo then (x :: xs).map (fun _ => (0 : ℚ))
    else (x :: xs).map (fun s => (s - lo) / (hi - lo))

/-- The scored distribution in ascending order. -/
def sortScores (scores : List ℚ) : List ℚ :=
  List.insertionSort (fun a b : ℚ => a ≤ b) scores

/-- Modelled from the spec: the rank (1-based) of the percentile-`p` entry of
an `n`-element scored distribution, nearest-rank convention. -/
def cutoffRank (n : ℕ) (p : ℚ) : ℕ := max 1 (Int.ceil (p * n / 100)).toNat

/-- Modelled from the spec: `threshold(scores, percentile) → cutoff` selects
the cutoff as the given percentile of the scored distribution (the
Calibrator implementation is not under src/; the docs only quote
`np.percentile(prob, 95)`). -/
def cutoff (scores : List ℚ) (p : ℚ) : ℚ :=
  (sortScores scores).getD (cutoffRank scores.length p - 1) 0

/-- Number of records labeled ANOMALY when the batch is classified against
cutoff `c` (score ≥ c). -/
def anomalyCount (scores : List ℚ) (c : ℚ) : ℕ :=
  scores.countP (fun s => decide (c ≤ s))

/-! ### Scorer (spec §4.4) -/

/-- Modelled from the spec: a checkpoint is a co-versioned snapshot of the
trained pair — the Generator reconstruction map and the Discriminator
probability map that the weights denote. -/
structure Checkpoint where
  gen : List ℚ → List ℚ
  disc : List ℚ → ℚ

/-- Per-feature L1 distance between two vectors. -/
def l1dist (a b : List ℚ) : ℚ := ((a.zip b).map (fun p => |p.1 - p.2|)).sum

/-- Modelled from the spec: `score(x, checkpoint) → raw_score`, a fixed
combination of the per-feature reconstruction error and the Discriminator's
output on the reconstruction; the Scorer implementation is not under src/.
No sampling or noise input appears anywhere in the formula. -/
def score (ck : Checkpoint) (x : List ℚ) : ℚ :=
  l1dist x (ck.gen x) + ck.disc (ck.gen x)

/-- The raw scores produced by a sequence of inference calls, each call a
(checkpoint, input) pair, in call order. -/
def scoreTrace (calls : List (Checkpoint × List ℚ)) : List ℚ :=
  calls.map (fun call => score call.1 call.2)

inductive ScoreError where
  | dataShape : ScoreError
deriving DecidableEq, Repr

/-- The fixed feature width of the NSL-KDD pipeline. -/
def featureWidth : ℕ := 116

/-- Modelled from the spec: the Scorer boundary rejects any input vector not
exactly 116 wide with a data-shape error and never pads, truncates or
otherwise coerces it; the Scorer implementation is not under src/. -/
def scoreChecked (ck : Checkpoint) (x : List ℚ) : Except ScoreError ℚ :=
  if x.length = featureWidth then Except.ok (score ck x)
  else Except.error ScoreError.dataShape

/-! ### Trainer: collapse guard (spec §4.3, docs quote
`if self.err_d.item() < 1e-5: self.reinit_d()`) -/

/-- The mutable long-lived training state: Generator parameters, the
Generator's optimizer state, and Discriminator parameters. -/
structure TrainerState where
  genParams : List ℚ
  genOptState : List ℚ
  discParams : List ℚ
deriving DecidableEq, Repr

/-- The fixed collapse epsilon 1e-5. -/
def epsD : ℚ := 1 / 100000

/-- Modelled from the spec: the per-batch collapse guard — when the
discriminator loss of the batch falls below epsilon, reinitialize only the
Discriminator's parameters (to the fresh values `freshD`) and continue;
`reinit_d` itself is not under src/ (the docs only quote its call site). -/
def collapseGuard (errD : ℚ) (freshD : List ℚ) (st : TrainerState) :
    TrainerState :=
  if errD < epsD then { st with discParams := freshD } else st

/-! ### Trainer: end-of-epoch checkpointing (spec §4.3, docs quote
`if res[self.opt.metric] > best_auc: ... self.save_weights(self.epoch)`) -/

/-- Run state across epochs: the next epoch index, the persisted "best" and
"current" checkpoints (each recorded as the epoch index and its validation
ROC-AUC), and the append-only EpochMetrics history of ROC-AUC values. -/
structure RunState where
  nextEpoch : ℕ
  bestCk : Option (ℕ × ℚ)
  currentCk : Option (ℕ × ℚ)
  history : List ℚ
deriving DecidableEq, Repr

/-- Modelled from the spec: end-of-epoch checkpointing — always persist the
"current" checkpoint; persist the "best" checkpoint exactly when this
epoch's validation ROC-AUC strictly exceeds the best seen so far (any value
exceeds the best when no epoch has been seen); the training loop is not
under src/ (the docs only quote the strict-improvement test). -/
def endOfEpoch (st : RunState) (auc : ℚ) : RunState :=
  let isBest : Bool :=
    match st.bestCk with
    | none => true
    | some b => decide (b.2 < auc)
  { nextEpoch := st.nextEpoch + 1
    bestCk := if isBest then some (st.nextEpoch, auc) else st.bestCk
    currentCk := some (st.nextEpoch, auc)
    history := st.history ++ [auc] }

/-- State before the first epoch: no checkpoint persisted, empty history. -/
def initRun : RunState :=
  { nextEpoch := 0, bestCk := none, currentCk := none, history := [] }

/-- A whole training run over the per-epoch validation ROC-AUC values. -/
def runEpochs (aucs : List ℚ) : RunState := aucs.foldl endOfEpoch initRun

/-! ### Serving layer: TrainingConfig (Admin.tsx lines 32–39, 284–288) -/

/-- The TrainingConfig record of Admin.tsx (lines 32–39): fields
`niter, lr, beta1, w_adv, w_con, w_enc`, each a number. -/
structure TrainingConfig where
  niter : ℚ
  lr : ℚ
  beta1 : ℚ
  w_adv : ℚ
  w_con : ℚ
  w_enc : ℚ
deriving DecidableEq, Repr

/-- The field names of the Admin.tsx TrainingConfig type, in declaration
order. -/
def adminConfigFields : List String :=
  ["niter", "lr", "beta1", "w_adv", "w_con", "w_enc"]

/-- The field names the claim asserts for the exchanged config record. -/
def claimedConfigFields : List String :=
  ["epoch_count", "learning_rate", "beta1", "w_adv", "w_con", "w_enc"]

/-- The JSON document for a config: the ordered field-name/value pairs that
`JSON.stringify(config)` serializes. -/
def serializeConfig (c : TrainingConfig) : List (String × ℚ) :=
  [("niter", c.niter), ("lr", c.lr), ("beta1", c.beta1),
   ("w_adv", c.w_adv), ("w_con", c.w_con), ("w_enc", c.w_enc)]

/-- The request body handleRunTraining (Admin.tsx lines 284–288) posts to
`/api/training/train`: `JSON.stringify(config)`, the loaded config record
serialized unmodified. -/
def handleRunTrainingBody (c : TrainingConfig) : List (String × ℚ) :=
  serializeConfig c

/-! ### Serving layer: inference aggregates (Dashboard.tsx lines 98–109) -/

/-- The counts the backend returns to handleInferenceFile. -/
structure InferenceResponse where
  normal_count : ℕ
  attack_count : ℕ
deriving DecidableEq, Repr

/-- The per-batch aggregate record handleInferenceFile builds. -/
structure InferenceResult where
  total : ℕ
  normal : ℕ
  attack : ℕ
  normal_percentage : ℚ
  attack_percentage : ℚ
deriving DecidableEq, Repr

/-- handleInferenceFile (Dashboard.tsx lines 98–109):
`total = normal_count + attack_count`,
`normal_percentage = total > 0 ? (normal_count / total) * 100 : 0`, and
likewise for `attack_percentage`. -/
def computeInferenceResult (d : InferenceResponse) : InferenceResult :=
  let total := d.normal_count + d.attack_count
  { total := total
    normal := d.normal_count
    attack := d.attack_count
    normal_percentage :=
      if 0 < total then ((d.normal_count : ℚ) / (total : ℚ)) * 100 else 0
    attack_percentage :=
      if 0 < total then ((d.attack_count : ℚ) / (total : ℚ)) * 100 else 0 }

/-! ### Serving layer: anomaly-score histogram (Admin.tsx lines 360–367) -/

/-- Lower edge `i / 20` of histogram bin `i`. -/
def binLo (i : ℕ) : ℚ := (i : ℚ) / 20

/-- Upper edge `(i + 1) / 20` of histogram bin `i`. -/
def binHi (i : ℕ) : ℚ := ((i : ℚ) + 1) / 20

/-- Bin membership in histogramData (Admin.tsx line 365):
`s >= min && s < max`. -/
def inBin (i : ℕ) (s : ℚ) : Bool :=
  decide (binLo i ≤ s) && decide (s < binHi i)

/-- The count of one histogram bin:
`scores.filter((s) => s >= min && s < max).length`. -/
def binCount (scores : List ℚ) (i : ℕ) : ℕ :=
  (scores.filter (fun s => inBin i s)).length

/-- histogramData (Admin.tsx lines 360–367): 20 bins over [0,1), bin `i`
spanning `[i/20, (i+1)/20)`. -/
def histogramCounts (scores : List ℚ) : List ℕ :=
  (List.range 20).map (fun i => binCount scores i)

/-- A concrete checkpoint used to instantiate witness statements. -/
def ckTest : Checkpoint :=
  { gen := fun v => v.map (fun t => t / 2), disc := fun v => v.sum }

end GanAnomaly

namespace GanAnomaly

/-! ### Helper lemmas -/

theorem listMin_le_base (x : ℚ) (xs : List ℚ) : listMin x xs ≤ x := by
  induction xs with
  | nil => exact le_refl x
  | cons a t ih => exact le_trans (min_le_right a (listMin x t)) ih

theorem listMin_le_mem (x : ℚ) (xs : List ℚ) (s : ℚ) (hs : s ∈ xs) :
    listMin x xs ≤ s := by
  induction xs with
  | nil => cases hs
  | cons a t ih =>
    rcases List.mem_cons.mp hs with h | h
    · rw [h]; exact min_le_left a (listMin x t)
    · exact le_trans (min_le_right a (listMin x t)) (ih h)

theorem listMin_mem (x : ℚ) (xs : List ℚ) : listMin x xs ∈ x :: xs := by
  induction xs with
  | nil => exact List.mem_singleton.mpr rfl
  | cons a t ih =>
    show min a (listMin x t) ∈ x :: a :: t
    rcases min_cases a (listMin x t) with ⟨h, _⟩ | ⟨h, _⟩
    · rw [h]; exact List.mem_cons_of_mem x (List.mem_cons_self a t)
    · rw [h]
      rcases List.mem_cons.mp ih with h2 | h2
      · rw [h2]; exact List.mem_cons_self x (a :: t)
      · exact List.mem_cons_of_mem x (List.mem_cons_of_mem a h2)

theorem base_le_listMax (x : ℚ) (xs : List ℚ) : x ≤ listMax x xs := by
  induction xs with
  | nil => exact le_refl x
  | cons a t ih => exact le_trans ih (le_max_right a (listMax x t))

theorem mem_le_listMax (x : ℚ) (xs : List ℚ) (s : ℚ) (hs : s ∈ xs) :
    s ≤ listMax x xs := by
  induction xs with
  | nil => cases hs
  | cons a t ih =>
    rcases List.mem_cons.mp hs with h | h
    · rw [h]; exact le_max_left a (listMax x t)
    · exact le_trans (ih h) (le_max_right a (listMax x t))

theorem listMax_mem (x : ℚ) (xs : List ℚ) : listMax x xs ∈ x :: xs := by
  induction xs with
  | nil => exact List.mem_singleton.mpr rfl
  | cons a t ih =>
    show max a (listMax x t) ∈ x :: a :: t
    rcases max_cases a (listMax x t) with ⟨h, _⟩ | ⟨h, _⟩
    · rw [h]; exact List.mem_cons_of_mem x (List.mem_cons_self a t)
    · rw [h]
      rcases List.mem_cons.mp ih with h2 | h2
      · rw [h2]; exact List.mem_cons_self x (a :: t)
      · exact List.mem_cons_of_mem x (List.mem_cons_of_mem a h2)

theorem normalize_cons_eq (x : ℚ) (xs : List ℚ) :
    normalize (x :: xs) =
      if listMax x xs = listMin x xs then (x :: xs).map (fun _ => (0 : ℚ))
      else (x :: xs).map
        (fun s => (s - listMin x xs) / (listMax x xs - listMin x xs)) := rfl

end GanAnomaly

namespace GanAnomaly

theorem endOfEpoch_nextEpoch (st : RunState) (a : ℚ) :
    (endOfEpoch st a).nextEpoch = st.nextEpoch + 1 := rfl

theorem endOfEpoch_currentCk (st : RunState) (a : ℚ) :
    (endOfEpoch st a).currentCk = some (st.nextEpoch, a) := rfl

theorem endOfEpoch_bestCk_none (st : RunState) (a : ℚ)
    (h : st.bestCk = none) :
    (endOfEpoch st a).bestCk = some (st.nextEpoch, a) := by
  unfold endOfEpoch
  rw [h]
  rfl

theorem endOfEpoch_bestCk_some (st : RunState) (a : ℚ) (p : ℕ) (bv : ℚ)
    (h : st.bestCk = some (p, bv)) :
    (endOfEpoch st a).bestCk =
      if bv < a then some (st.nextEpoch, a) else st.bestCk := by
  unfold endOfEpoch
  rw [h]
  by_cases hv : bv < a
  · simp [hv]
  · simp [hv]

theorem runEpochs_concat (aucs : List ℚ) (a : ℚ) :
    runEpochs (aucs ++ [a]) = endOfEpoch (runEpochs aucs) a := by
  unfold runEpochs
  rw [List.foldl_append]
  rfl

/-- Run invariant: after folding the epochs, the epoch counter equals the
history length, the "current" checkpoint is the last epoch, and the "best"
checkpoint is the first argmax of the ROC-AUC history. -/
theorem runEpochs_spec (aucs : List ℚ) :
    (runEpochs aucs).nextEpoch = aucs.length ∧
    (aucs = [] → runEpochs aucs = initRun) ∧
    (aucs ≠ [] →
      (runEpochs aucs).currentCk =
        some (aucs.length - 1, aucs.getD (aucs.length - 1) 0) ∧
      ∃ i v, (runEpochs aucs).bestCk = some (i, v) ∧
        i < aucs.length ∧ aucs.getD i 0 = v ∧
        (∀ j, j < aucs.length → aucs.getD j 0 ≤ v) ∧
        (∀ j, j < i → aucs.getD j 0 < v)) := by
  induction aucs using List.reverseRecOn with
  | nil => exact ⟨rfl, fun _ => rfl, fun h => absurd rfl h⟩
  | append_singleton l a ih =>
    obtain ⟨ihn, ihnil, ihne⟩ := ih
    have hconcat : runEpochs (l ++ [a]) = endOfEpoch (runEpochs l) a :=
      runEpochs_concat l a
    have hlen : (l ++ [a]).length = l.length + 1 := by simp
    have hgetA : (l ++ [a]).getD l.length 0 = a := by
      rw [List.getD_eq_getElem _ _ (by simp), List.getElem_append_right
        (le_refl l.length)]
      simp
    have hgetL : ∀ j, j < l.length → (l ++ [a]).getD j 0 = l.getD j 0 := by
      intro j hj
      rw [List.getD_eq_getElem _ _ (by simp; omega),
        List.getElem_append_left hj, List.getD_eq_getElem _ _ hj]
    by_cases hl : l = []
    · subst hl
      simp only [List.nil_append] at hconcat hlen hgetA ⊢
      refine ⟨rfl, ?_, ?_⟩
      · intro h
        exact (List.cons_ne_nil a [] h).elim
      · intro _
        refine ⟨rfl, 0, a, ?_, Nat.zero_lt_one, rfl, ?_, ?_⟩
        · rw [hconcat]
          exact endOfEpoch_bestCk_none _ a rfl
        · intro j hj
          have hj0 : j = 0 := Nat.lt_one_iff.mp (by simpa using hj)
          rw [hj0]
          exact le_refl a
        · intro j hj
          cases hj
    · obtain ⟨ihcur, i, v, ihbest, hi, hiv, hub, hstrict⟩ := ihne hl
      refine ⟨?_, ?_, fun _ => ⟨?_, ?_⟩⟩
      · rw [hconcat, endOfEpoch_nextEpoch, ihn, hlen]
      · intro h
        exact absurd h (by simp)
      · rw [hconcat, endOfEpoch_currentCk, ihn, hlen]
        rw [Nat.add_sub_cancel, hgetA]
      · by_cases hva : v < a
        · refine ⟨l.length, a, ?_, ?_, hgetA, ?_, ?_⟩
          · rw [hconcat, endOfEpoch_bestCk_some _ a i v ihbest, if_pos hva,
              ihn]
          · rw [hlen]; exact Nat.lt_succ_self _
          · intro j hj
            rw [hlen, Nat.lt_succ_iff] at hj
            rcases Nat.lt_or_eq_of_le hj with h | h
            · rw [hgetL j h]
              exact le_of_lt (lt_of_le_of_lt (hub j h) hva)
            · rw [h, hgetA]
          · intro j hj
            rw [hgetL j hj]
            exact lt_of_le_of_lt (hub j hj) hva
        · refine ⟨i, v, ?_, ?_, ?_, ?_, ?_⟩
          · rw [hconcat, endOfEpoch_bestCk_some _ a i v ihbest, if_neg hva,
              ihbest]
          · rw [hlen]; exact Nat.lt_succ_of_lt hi
          · rw [hgetL i hi]; exact hiv
          · intro j hj
            rw [hlen, Nat.lt_succ_iff] at hj
            rcases Nat.lt_or_eq_of_le hj with h | h
            · rw [hgetL j h]; exact hub j h
            · rw [h, hgetA]; exact not_lt.mp hva
          · intro j hj
            rw [hgetL j (lt_trans hj hi)]
            exact hstrict j hj

end GanAnomaly

/-! ### Claim theorems -/

/-- C1: for every set of normalized scores and every chosen cutoff, the
classifier labels a record ANOMALY exactly when its score is ≥ the cutoff and
NORMAL exactly when its score is below the cutoff. -/
theorem c1_classify_anomaly_iff_ge_cutoff (scores : List ℚ) (c : ℚ) (i : ℕ)
    (hi : i < scores.length) :
    ((GanAnomaly.classifyBatch scores c).getD i GanAnomaly.Label.NORMAL =
        GanAnomaly.Label.ANOMALY ↔ c ≤ scores.getD i 0) ∧
    ((GanAnomaly.classifyBatch scores c).getD i GanAnomaly.Label.NORMAL =
        GanAnomaly.Label.NORMAL ↔ scores.getD i 0 < c) := by
  have hlen : i < (scores.map (GanAnomaly.classify c)).length := by
    simpa using hi
  have hmap : (GanAnomaly.classifyBatch scores c).getD i GanAnomaly.Label.NORMAL =
      GanAnomaly.classify c (scores.getD i 0) := by
    unfold GanAnomaly.classifyBatch
    rw [List.getD_eq_getElem _ _ hlen, List.getD_eq_getElem _ _ hi,
      List.getElem_map]
  rw [hmap]
  unfold GanAnomaly.classify
  by_cases hc : c ≤ scores.getD i 0
  · rw [if_pos hc]
    constructor
    · exact ⟨fun _ => hc, fun _ => rfl⟩
    · constructor
      · intro h; cases h
      · intro h; exact absurd hc (not_le.mpr h)
  · rw [if_neg hc]
    constructor
    · constructor
      · intro h; cases h
      · intro h; exact absurd h hc
    · exact ⟨fun _ => not_le.mp hc, fun _ => rfl⟩

/-- Witness for C1 at a concrete batch: record 1 of the batch [1/2, 2] at
cutoff 1 has score 2 ≥ 1 and is labeled ANOMALY. -/
theorem c1_classify_anomaly_iff_ge_cutoff_witness :
    ((GanAnomaly.classifyBatch [(1 : ℚ)/2, 2] 1).getD 1 GanAnomaly.Label.NORMAL =
        GanAnomaly.Label.ANOMALY ↔ (1 : ℚ) ≤ [(1 : ℚ)/2, 2].getD 1 0) ∧
    ((GanAnomaly.classifyBatch [(1 : ℚ)/2, 2] 1).getD 1 GanAnomaly.Label.NORMAL =
        GanAnomaly.Label.NORMAL ↔ [(1 : ℚ)/2, 2].getD 1 0 < 1) :=
  c1_classify_anomaly_iff_ge_cutoff [(1 : ℚ)/2, 2] 1 1 (by decide)

/-- C4: for a non-empty, non-degenerate batch, min-max normalization attains
minimum exactly 0 and maximum exactly 1; for a degenerate batch (all raw
scores equal) it performs no division by the zero range and returns the
defined all-0 fallback for every record. -/
theorem c4_normalize_minmax (raw : List ℚ) (hne : raw ≠ []) :
    ((∃ a ∈ raw, ∃ b ∈ raw, a ≠ b) →
      0 ∈ GanAnomaly.normalize raw ∧ (∀ y ∈ GanAnomaly.normalize raw, 0 ≤ y) ∧
      1 ∈ GanAnomaly.normalize raw ∧ (∀ y ∈ GanAnomaly.normalize raw, y ≤ 1)) ∧
    ((∀ a ∈ raw, ∀ b ∈ raw, a = b) →
      GanAnomaly.normalize raw = raw.map (fun _ => (0 : ℚ))) := by
  match raw, hne with
  | x :: xs, _ =>
    set lo := GanAnomaly.listMin x xs with hlo_def
    set hi := GanAnomaly.listMax x xs with hhi_def
    have hlo_mem : lo ∈ x :: xs := GanAnomaly.listMin_mem x xs
    have hhi_mem : hi ∈ x :: xs := GanAnomaly.listMax_mem x xs
    have hlo_le : ∀ s ∈ x :: xs, lo ≤ s := by
      intro s hs
      rcases List.mem_cons.mp hs with h | h
      · rw [h]; exact GanAnomaly.listMin_le_base x xs
      · exact GanAnomaly.listMin_le_mem x xs s h
    have hle_hi : ∀ s ∈ x :: xs, s ≤ hi := by
      intro s hs
      rcases List.mem_cons.mp hs with h | h
      · rw [h]; exact GanAnomaly.base_le_listMax x xs
      · exact GanAnomaly.mem_le_listMax x xs s h
    constructor
    · rintro ⟨a, ha, b, hb, hab⟩
      have hne2 : hi ≠ lo := by
        intro heq
        apply hab
        have h1 : a = lo := le_antisymm (heq ▸ hle_hi a ha) (hlo_le a ha)
        have h2 : b = lo := le_antisymm (heq ▸ hle_hi b hb) (hlo_le b hb)
        rw [h1, h2]
      have hlt : lo < hi :=
        lt_of_le_of_ne (le_trans (hlo_le x (List.mem_cons_self x xs))
          (hle_hi x (List.mem_cons_self x xs))) (Ne.symm hne2)
      have hpos : 0 < hi - lo := sub_pos.mpr hlt
      rw [GanAnomaly.normalize_cons_eq, if_neg hne2]
      refine ⟨?_, ?_, ?_, ?_⟩
      · exact List.mem_map.mpr ⟨lo, hlo_mem, by rw [sub_self, zero_div]⟩
      · intro y hy
        rcases List.mem_map.mp hy with ⟨s, hs, hsy⟩
        rw [← hsy]
        exact div_nonneg (sub_nonneg.mpr (hlo_le s hs)) (le_of_lt hpos)
      · exact List.mem_map.mpr ⟨hi, hhi_mem, div_self (ne_of_gt hpos)⟩
      · intro y hy
        rcases List.mem_map.mp hy with ⟨s, hs, hsy⟩
        rw [← hsy]
        exact (div_le_one hpos).mpr (sub_le_sub_right (hle_hi s hs) lo)
    · intro hall
      have heq : hi = lo := hall hi hhi_mem lo hlo_mem
      rw [GanAnomaly.normalize_cons_eq, if_pos heq]

/-- Witness for C4: the non-degenerate batch [3, 1, 2] attains 0 and 1 after
normalization; the degenerate batch [2, 2] maps to the all-0 fallback. -/
theorem c4_normalize_minmax_witness :
    (0 ∈ GanAnomaly.normalize [(3 : ℚ), 1, 2] ∧
      (∀ y ∈ GanAnomaly.normalize [(3 : ℚ), 1, 2], 0 ≤ y) ∧
      1 ∈ GanAnomaly.normalize [(3 : ℚ), 1, 2] ∧
      (∀ y ∈ GanAnomaly.normalize [(3 : ℚ), 1, 2], y ≤ 1)) ∧
    GanAnomaly.normalize [(2 : ℚ), 2] = [(2 : ℚ), 2].map (fun _ => (0 : ℚ)) :=
  ⟨(c4_normalize_minmax [(3 : ℚ), 1, 2] (by decide)).1
      ⟨3, by decide, 1, by decide, by decide⟩,
    (c4_normalize_minmax [(2 : ℚ), 2] (by decide)).2 (by decide)⟩

/-- C2: when the per-batch discriminator loss falls below the fixed epsilon
1e-5, the collapse guard replaces only the Discriminator's parameters with
the fresh reinitialization; the Generator's parameters and its optimizer
state are identical across the recovery step, which yields a successor
training state (the run continues). -/
theorem c2_collapse_reinit_frame (errD : ℚ) (freshD : List ℚ)
    (st : GanAnomaly.TrainerState) (h : errD < GanAnomaly.epsD) :
    (GanAnomaly.collapseGuard errD freshD st).genParams = st.genParams ∧
    (GanAnomaly.collapseGuard errD freshD st).genOptState = st.genOptState ∧
    (GanAnomaly.collapseGuard errD freshD st).discParams = freshD := by
  unfold GanAnomaly.collapseGuard
  rw [if_pos h]
  exact ⟨rfl, rfl, rfl⟩

/-- Witness for C2: a batch with discriminator loss 0 < 1e-5 triggers the
guard on a concrete state; the Generator side survives byte-identically and
the Discriminator side takes the fresh values. -/
theorem c2_collapse_reinit_frame_witness :
    (GanAnomaly.collapseGuard 0 [5]
        ⟨[1, 2], [3], [4]⟩).genParams =
      (⟨[1, 2], [3], [4]⟩ : GanAnomaly.TrainerState).genParams ∧
    (GanAnomaly.collapseGuard 0 [5]
        ⟨[1, 2], [3], [4]⟩).genOptState =
      (⟨[1, 2], [3], [4]⟩ : GanAnomaly.TrainerState).genOptState ∧
    (GanAnomaly.collapseGuard 0 [5]
        ⟨[1, 2], [3], [4]⟩).discParams = [5] :=
  c2_collapse_reinit_frame 0 [5] ⟨[1, 2], [3], [4]⟩
    (by norm_num [GanAnomaly.epsD])

/-- C8 counterexample: the config record Admin.tsx exchanges with the
backend has no `epoch_count` and no `learning_rate` field — its field names
are `niter` and `lr` — so the claimed field set is not the code's. -/
theorem c8_config_fields_counterexample :
    GanAnomaly.adminConfigFields ≠ GanAnomaly.claimedConfigFields ∧
    "epoch_count" ∉ GanAnomaly.adminConfigFields ∧
    "learning_rate" ∉ GanAnomaly.adminConfigFields := by
  refine ⟨by decide, by decide, by decide⟩

/-- C8 amended: the TrainingConfig exchanged with the serving layer is a
flat record with exactly the fields {niter, lr, beta1, w_adv, w_con, w_enc}
(niter being the epoch count and lr the learning rate), and handleRunTraining
passes the loaded config to the training endpoint unmodified — the request
body is the config serialized with the same field names and values. -/
theorem c8_config_passed_unmodified (c : GanAnomaly.TrainingConfig) :
    (GanAnomaly.serializeConfig c).map Prod.fst = GanAnomaly.adminConfigFields ∧
    GanAnomaly.handleRunTrainingBody c =
      [("niter", c.niter), ("lr", c.lr), ("beta1", c.beta1),
       ("w_adv", c.w_adv), ("w_con", c.w_con), ("w_enc", c.w_enc)] :=
  ⟨rfl, rfl⟩

/-- C9: the inference aggregates satisfy total = normal + attack; for a
non-empty batch each percentage is 100·count/total and the two sum to 100;
for an empty batch both percentages are 0 with no division by zero. -/
theorem c9_inference_aggregates (d : GanAnomaly.InferenceResponse) :
    (GanAnomaly.computeInferenceResult d).total =
      (GanAnomaly.computeInferenceResult d).normal +
        (GanAnomaly.computeInferenceResult d).attack ∧
    (0 < (GanAnomaly.computeInferenceResult d).total →
      (GanAnomaly.computeInferenceResult d).normal_percentage =
        100 * ((GanAnomaly.computeInferenceResult d).normal : ℚ) /
          ((GanAnomaly.computeInferenceResult d).total : ℚ) ∧
      (GanAnomaly.computeInferenceResult d).attack_percentage =
        100 * ((GanAnomaly.computeInferenceResult d).attack : ℚ) /
          ((GanAnomaly.computeInferenceResult d).total : ℚ) ∧
      (GanAnomaly.computeInferenceResult d).normal_percentage +
        (GanAnomaly.computeInferenceResult d).attack_percentage = 100) ∧
    ((GanAnomaly.computeInferenceResult d).total = 0 →
      (GanAnomaly.computeInferenceResult d).normal_percentage = 0 ∧
      (GanAnomaly.computeInferenceResult d).attack_percentage = 0) := by
  obtain ⟨n, a⟩ := d
  have h1 : (GanAnomaly.computeInferenceResult ⟨n, a⟩).total = n + a := rfl
  have h2 : (GanAnomaly.computeInferenceResult ⟨n, a⟩).normal = n := rfl
  have h3 : (GanAnomaly.computeInferenceResult ⟨n, a⟩).attack = a := rfl
  have h4 : (GanAnomaly.computeInferenceResult ⟨n, a⟩).normal_percentage =
      if 0 < n + a then ((n : ℚ) / ((n + a : ℕ) : ℚ)) * 100 else 0 := rfl
  have h5 : (GanAnomaly.computeInferenceResult ⟨n, a⟩).attack_percentage =
      if 0 < n + a then ((a : ℚ) / ((n + a : ℕ) : ℚ)) * 100 else 0 := rfl
  rw [h1, h2, h3, h4, h5]
  refine ⟨rfl, ?_, ?_⟩
  · intro hpos
    have hne : ((n + a : ℕ) : ℚ) ≠ 0 :=
      Nat.cast_ne_zero.mpr (Nat.pos_iff_ne_zero.mp hpos)
    simp only [if_pos hpos]
    refine ⟨?_, ?_, ?_⟩
    · rw [div_mul_eq_mul_div, mul_comm]
    · rw [div_mul_eq_mul_div, mul_comm]
    · rw [div_mul_eq_mul_div, div_mul_eq_mul_div, div_add_div_same, ← add_mul]
      have hcast : ((n : ℚ) + (a : ℚ)) = ((n + a : ℕ) : ℚ) := by
        push_cast; ring
      rw [hcast, mul_comm, mul_div_assoc, div_self hne, mul_one]
  · intro hz
    have hneg : ¬ 0 < n + a := by rw [hz]; exact lt_irrefl 0
    simp only [if_neg hneg]
    constructor <;> trivial

/-- Witness for C9: a batch of 3 normal and 1 attack records has total 4,
percentages 75 and 25 summing to 100; the empty batch reports 0 and 0. -/
theorem c9_inference_aggregates_witness :
    ((GanAnomaly.computeInferenceResult ⟨3, 1⟩).normal_percentage =
        100 * ((GanAnomaly.computeInferenceResult ⟨3, 1⟩).normal : ℚ) /
          ((GanAnomaly.computeInferenceResult ⟨3, 1⟩).total : ℚ) ∧
      (GanAnomaly.computeInferenceResult ⟨3, 1⟩).attack_percentage =
        100 * ((GanAnomaly.computeInferenceResult ⟨3, 1⟩).attack : ℚ) /
          ((GanAnomaly.computeInferenceResult ⟨3, 1⟩).total : ℚ) ∧
      (GanAnomaly.computeInferenceResult ⟨3, 1⟩).normal_percentage +
        (GanAnomaly.computeInferenceResult ⟨3, 1⟩).attack_percentage = 100) ∧
    ((GanAnomaly.computeInferenceResult ⟨0, 0⟩).normal_percentage = 0 ∧
      (GanAnomaly.computeInferenceResult ⟨0, 0⟩).attack_percentage = 0) :=
  ⟨(c9_inference_aggregates ⟨3, 1⟩).2.1 (by decide),
    (c9_inference_aggregates ⟨0, 0⟩).2.2 (by decide)⟩

/-- C6: scoring is deterministic — in any sequence of inference calls, two
calls made with the same input vector and the same checkpoint return
identical raw scores; the score formula takes no sampling or noise input. -/
theorem c6_score_deterministic (calls : List (GanAnomaly.Checkpoint × List ℚ))
    (d : GanAnomaly.Checkpoint × List ℚ) (i j : ℕ)
    (hi : i < calls.length) (hj : j < calls.length)
    (heq : calls.getD i d = calls.getD j d) :
    (GanAnomaly.scoreTrace calls).getD i 0 =
      (GanAnomaly.scoreTrace calls).getD j 0 := by
  have hi2 : i < (GanAnomaly.scoreTrace calls).length := by
    simpa [GanAnomaly.scoreTrace] using hi
  have hj2 : j < (GanAnomaly.scoreTrace calls).length := by
    simpa [GanAnomaly.scoreTrace] using hj
  rw [List.getD_eq_getElem _ _ hi, List.getD_eq_getElem _ _ hj] at heq
  unfold GanAnomaly.scoreTrace at hi2 hj2 ⊢
  rw [List.getD_eq_getElem _ _ hi2, List.getD_eq_getElem _ _ hj2,
    List.getElem_map, List.getElem_map]
  exact congrArg (fun call => GanAnomaly.score call.1 call.2) heq

/-- Witness for C6: two identical calls in a concrete two-call trace return
the same raw score. -/
theorem c6_score_deterministic_witness :
    (GanAnomaly.scoreTrace
        [(GanAnomaly.ckTest, [1, 2]), (GanAnomaly.ckTest, [1, 2])]).getD 0 0 =
      (GanAnomaly.scoreTrace
        [(GanAnomaly.ckTest, [1, 2]), (GanAnomaly.ckTest, [1, 2])]).getD 1 0 :=
  c6_score_deterministic _ (GanAnomaly.ckTest, []) 0 1 (by decide) (by decide)
    rfl

/-- C7: the Scorer boundary rejects every input vector whose length is not
exactly 116 with a data-shape error, and scores a 116-wide vector as given —
no padding, truncation or other coercion happens inside the core. -/
theorem c7_scorer_rejects_bad_width (ck : GanAnomaly.Checkpoint)
    (x : List ℚ) :
    (x.length ≠ 116 →
      GanAnomaly.scoreChecked ck x =
        Except.error GanAnomaly.ScoreError.dataShape) ∧
    (x.length = 116 →
      GanAnomaly.scoreChecked ck x = Except.ok (GanAnomaly.score ck x)) := by
  unfold GanAnomaly.scoreChecked GanAnomaly.featureWidth
  constructor
  · intro h; rw [if_neg h]
  · intro h; rw [if_pos h]

/-- Witness for C7: a 3-wide vector is rejected with the data-shape error; a
116-wide vector is scored as-is. -/
theorem c7_scorer_rejects_bad_width_witness :
    GanAnomaly.scoreChecked GanAnomaly.ckTest [1, 2, 3] =
      Except.error GanAnomaly.ScoreError.dataShape ∧
    GanAnomaly.scoreChecked GanAnomaly.ckTest (List.replicate 116 0) =
      Except.ok (GanAnomaly.score GanAnomaly.ckTest (List.replicate 116 0)) :=
  ⟨(c7_scorer_rejects_bad_width GanAnomaly.ckTest [1, 2, 3]).1 (by decide),
    (c7_scorer_rejects_bad_width GanAnomaly.ckTest
      (List.replicate 116 0)).2 (by decide)⟩

/-- C3: after every run prefix the "current" checkpoint is persisted and
records the last epoch; the "best" checkpoint is updated exactly on strict
improvement of the validation ROC-AUC, so at end of training it is the first
argmax of ROC-AUC over the EpochMetrics history. -/
theorem c3_best_checkpoint_is_argmax (aucs : List ℚ) (hne : aucs ≠ []) :
    (GanAnomaly.runEpochs aucs).currentCk =
      some (aucs.length - 1, aucs.getD (aucs.length - 1) 0) ∧
    ∃ i v, (GanAnomaly.runEpochs aucs).bestCk = some (i, v) ∧
      i < aucs.length ∧ aucs.getD i 0 = v ∧
      (∀ j, j < aucs.length → aucs.getD j 0 ≤ v) ∧
      (∀ j, j < i → aucs.getD j 0 < v) :=
  (GanAnomaly.runEpochs_spec aucs).2.2 hne

/-- Witness for C3: a concrete 4-epoch run with ROC-AUC history
[1/2, 3/4, 3/4, 1/4] keeps the last epoch as "current" and the first
maximum (epoch 1, value 3/4) as "best". -/
theorem c3_best_checkpoint_is_argmax_witness :
    (GanAnomaly.runEpochs [(1 : ℚ)/2, 3/4, 3/4, 1/4]).currentCk =
      some ([(1 : ℚ)/2, 3/4, 3/4, 1/4].length - 1,
        [(1 : ℚ)/2, 3/4, 3/4, 1/4].getD
          ([(1 : ℚ)/2, 3/4, 3/4, 1/4].length - 1) 0) ∧
    ∃ i v, (GanAnomaly.runEpochs [(1 : ℚ)/2, 3/4, 3/4, 1/4]).bestCk =
        some (i, v) ∧
      i < [(1 : ℚ)/2, 3/4, 3/4, 1/4].length ∧
      [(1 : ℚ)/2, 3/4, 3/4, 1/4].getD i 0 = v ∧
      (∀ j, j < [(1 : ℚ)/2, 3/4, 3/4, 1/4].length →
        [(1 : ℚ)/2, 3/4, 3/4, 1/4].getD j 0 ≤ v) ∧
      (∀ j, j < i → [(1 : ℚ)/2, 3/4, 3/4, 1/4].getD j 0 < v) :=
  c3_best_checkpoint_is_argmax [(1 : ℚ)/2, 3/4, 3/4, 1/4]
    (List.cons_ne_nil _ _)

theorem sorted_getD_mono (l : List ℚ)
    (hs : List.Sorted (fun a b : ℚ => a ≤ b) l) (i j : ℕ)
    (hij : i ≤ j) (hj : j < l.length) : l.getD i 0 ≤ l.getD j 0 := by
  have hi : i < l.length := lt_of_le_of_lt hij hj
  rw [List.getD_eq_getElem _ _ hi, List.getD_eq_getElem _ _ hj]
  rcases Nat.lt_or_eq_of_le hij with h | h
  · have hrel := List.Sorted.rel_get_of_lt hs
      (a := ⟨i, hi⟩) (b := ⟨j, hj⟩) (Fin.mk_lt_mk.mpr h)
    simpa [List.get_eq_getElem] using hrel
  · subst h
    exact le_refl _

/-- C5: for a fixed score set, a higher percentile never yields a smaller
cutoff, and classifying the same score set against a larger cutoff never
yields more records labeled ANOMALY. -/
theorem c5_threshold_monotone (scores : List ℚ) (p q c₁ c₂ : ℚ) :
    (0 ≤ p → p ≤ q → q ≤ 100 →
      GanAnomaly.cutoff scores p ≤ GanAnomaly.cutoff scores q) ∧
    (c₁ ≤ c₂ →
      GanAnomaly.anomalyCount scores c₂ ≤ GanAnomaly.anomalyCount scores c₁) := by
  constructor
  · intro hp hpq hq
    unfold GanAnomaly.cutoff
    have hperm := List.perm_insertionSort (fun a b : ℚ => a ≤ b) scores
    have hlen : (GanAnomaly.sortScores scores).length = scores.length :=
      hperm.length_eq
    have hsorted : List.Sorted (fun a b : ℚ => a ≤ b)
        (GanAnomaly.sortScores scores) :=
      List.sorted_insertionSort _ scores
    rcases Nat.eq_zero_or_pos scores.length with hn | hn
    · have hnil : GanAnomaly.sortScores scores = [] :=
        List.length_eq_zero.mp (by rw [hlen, hn])
      rw [hnil]
      exact le_refl _
    · have hdiv : p * (scores.length : ℚ) / 100 ≤
          q * (scores.length : ℚ) / 100 :=
        (div_le_div_iff_of_pos_right (by norm_num)).mpr
          (mul_le_mul_of_nonneg_right hpq (Nat.cast_nonneg _))
      have hk12 : GanAnomaly.cutoffRank scores.length p ≤
          GanAnomaly.cutoffRank scores.length q :=
        max_le_max (le_refl 1) (Int.toNat_le_toNat (Int.ceil_mono hdiv))
      have hk2n : GanAnomaly.cutoffRank scores.length q ≤ scores.length := by
        unfold GanAnomaly.cutoffRank
        refine max_le hn ?_
        rw [Int.toNat_le]
        refine Int.ceil_le.mpr ?_
        push_cast
        rw [div_le_iff₀ (by norm_num : (0 : ℚ) < 100)]
        calc q * (scores.length : ℚ)
            ≤ 100 * (scores.length : ℚ) :=
              mul_le_mul_of_nonneg_right hq (Nat.cast_nonneg _)
          _ = (scores.length : ℚ) * 100 := by ring
      have hq1 : 1 ≤ GanAnomaly.cutoffRank scores.length q :=
        le_max_left 1 _
      refine sorted_getD_mono _ hsorted _ _
        (Nat.sub_le_sub_right hk12 1) ?_
      rw [hlen]
      omega
  · intro hc
    unfold GanAnomaly.anomalyCount
    refine List.countP_mono_left ?_
    intro s _ hs2
    simp only [decide_eq_true_eq] at hs2 ⊢
    exact le_trans hc hs2

/-- Witness for C5: on the score set [1, 3, 2], the 100th-percentile cutoff
is at least the 50th-percentile cutoff, and cutoff 2 flags no more records
than cutoff 1. -/
theorem c5_threshold_monotone_witness :
    GanAnomaly.cutoff [(1 : ℚ), 3, 2] 50 ≤
      GanAnomaly.cutoff [(1 : ℚ), 3, 2] 100 ∧
    GanAnomaly.anomalyCount [(1 : ℚ), 3, 2] 2 ≤
      GanAnomaly.anomalyCount [(1 : ℚ), 3, 2] 1 :=
  ⟨(c5_threshold_monotone [(1 : ℚ), 3, 2] 50 100 1 2).1
      (by norm_num) (by norm_num) (by norm_num),
    (c5_threshold_monotone [(1 : ℚ), 3, 2] 50 100 1 2).2 (by norm_num)⟩

theorem inBin_iff (i : ℕ) (s : ℚ) :
    GanAnomaly.inBin i s = true ↔
      GanAnomaly.binLo i ≤ s ∧ s < GanAnomaly.binHi i := by
  unfold GanAnomaly.inBin
  rw [Bool.and_eq_true, decide_eq_true_eq, decide_eq_true_eq]

theorem bin_indicator_sum (m : ℕ) (s : ℚ) (hs : 0 ≤ s) :
    ((List.range m).map
        (fun i => if GanAnomaly.inBin i s then 1 else 0)).sum =
      if s < (m : ℚ) / 20 then (1 : ℕ) else 0 := by
  induction m with
  | zero =>
    have h0 : ¬ s < ((0 : ℕ) : ℚ) / 20 := by
      push_cast
      rw [zero_div]
      exact not_lt.mpr hs
    rw [if_neg h0]
    rfl
  | succ n ih =>
    rw [List.range_succ, List.map_append, List.sum_append, ih]
    have hone : ((List.map
        (fun i => if GanAnomaly.inBin i s then 1 else 0) [n]).sum : ℕ) =
        if GanAnomaly.inBin n s then 1 else 0 := by simp
    rw [hone]
    have hcast : ((n + 1 : ℕ) : ℚ) / 20 = ((n : ℚ) + 1) / 20 := by
      push_cast
      ring
    rw [hcast]
    by_cases h1 : s < (n : ℚ) / 20
    · have hbin : GanAnomaly.inBin n s = false := by
        rw [Bool.eq_false_iff, Ne, inBin_iff]
        rintro ⟨hlo, _⟩
        exact absurd h1 (not_lt.mpr hlo)
      have h2 : s < ((n : ℚ) + 1) / 20 := by
        refine lt_of_lt_of_le h1 ?_
        apply div_le_div_of_nonneg_right ?_ (by norm_num)
        linarith
      rw [if_pos h1, if_pos h2, hbin]
      rfl
    · by_cases h2 : s < ((n : ℚ) + 1) / 20
      · have hbin : GanAnomaly.inBin n s = true := by
          rw [inBin_iff]
          exact ⟨not_lt.mp h1, h2⟩
        rw [if_neg h1, if_pos h2, hbin]
        rfl
      · have hbin : GanAnomaly.inBin n s = false := by
          rw [Bool.eq_false_iff, Ne, inBin_iff]
          rintro ⟨_, hhi⟩
          exact h2 hhi
        rw [if_neg h1, if_neg h2, hbin]
        rfl

theorem binCount_cons (s : ℚ) (t : List ℚ) (i : ℕ) :
    GanAnomaly.binCount (s :: t) i =
      (if GanAnomaly.inBin i s then 1 else 0) + GanAnomaly.binCount t i := by
  unfold GanAnomaly.binCount
  rw [List.filter_cons]
  by_cases h : GanAnomaly.inBin i s
  · rw [if_pos h, if_pos h, List.length_cons]
    omega
  · rw [if_neg h, if_neg h]
    omega

theorem sum_map_add (l : List ℕ) (f g : ℕ → ℕ) :
    (l.map (fun i => f i + g i)).sum = (l.map f).sum + (l.map g).sum := by
  induction l with
  | nil => rfl
  | cons a t ih =>
    simp only [List.map_cons, List.sum_cons, ih]
    omega

theorem histogram_sum_eq (scores : List ℚ) (hs : ∀ s ∈ scores, 0 ≤ s) :
    (GanAnomaly.histogramCounts scores).sum =
      (scores.filter (fun s => decide (s < (1 : ℚ)))).length := by
  induction scores with
  | nil => rfl
  | cons s t ih =>
    have hs0 : 0 ≤ s := hs s (List.mem_cons_self s t)
    have hst : ∀ x ∈ t, 0 ≤ x := fun x hx => hs x (List.mem_cons_of_mem s hx)
    unfold GanAnomaly.histogramCounts at ih ⊢
    have hmapeq : (List.range 20).map
        (fun i => GanAnomaly.binCount (s :: t) i) =
        (List.range 20).map (fun i =>
          (if GanAnomaly.inBin i s then 1 else 0) +
            GanAnomaly.binCount t i) := by
      apply List.map_congr_left
      intro i _
      exact binCount_cons s t i
    rw [hmapeq, sum_map_add, bin_indicator_sum 20 s hs0, ih hst]
    have h20 : ((20 : ℕ) : ℚ) / 20 = 1 := by norm_num
    rw [h20, List.filter_cons]
    by_cases hlt : s < (1 : ℚ)
    · have hd : (decide (s < (1 : ℚ))) = true := decide_eq_true hlt
      rw [if_pos hlt, hd, if_pos rfl, List.length_cons]
      omega
    · have hd : (decide (s < (1 : ℚ))) = false := decide_eq_false hlt
      rw [if_neg hlt, hd, if_neg Bool.false_ne_true]
      omega

/-- C10: the Admin histogram's 20 bins are the half-open intervals
[i/20, (i+1)/20) with membership min ≤ s < max; a score exactly 1 falls into
no bin, so for every list of normalized scores (all ≥ 0) the bin counts sum
to the number of scores strictly below 1, not the total number of scores. -/
theorem c10_histogram_misses_one (scores : List ℚ)
    (hs : ∀ s ∈ scores, 0 ≤ s) :
    (∀ i s, GanAnomaly.inBin i s = true ↔
      GanAnomaly.binLo i ≤ s ∧ s < GanAnomaly.binHi i) ∧
    (∀ i, i < 20 → GanAnomaly.inBin i (1 : ℚ) = false) ∧
    (GanAnomaly.histogramCounts scores).sum =
      (scores.filter (fun s => decide (s < (1 : ℚ)))).length := by
  refine ⟨inBin_iff, ?_, histogram_sum_eq scores hs⟩
  intro i hi
  have h19 : (i : ℚ) ≤ 19 := by
    have : i ≤ 19 := by omega
    exact_mod_cast this
  have hle : ((i : ℚ) + 1) / 20 ≤ 1 := by
    rw [div_le_one (by norm_num)]
    linarith
  rw [Bool.eq_false_iff, Ne, inBin_iff]
  rintro ⟨_, hhi⟩
  exact absurd hhi (not_lt.mpr hle)

/-- Witness for C10: on the normalized scores [0, 1/2, 1] the 20 bin counts
sum to 2, the number of scores strictly below 1, not to the batch size 3. -/
theorem c10_histogram_misses_one_witness :
    (GanAnomaly.histogramCounts [(0 : ℚ), 1/2, 1]).sum =
      ([(0 : ℚ), 1/2, 1].filter (fun s => decide (s < (1 : ℚ)))).length :=
  (c10_histogram_misses_one [(0 : ℚ), 1/2, 1]
    (by
      intro s hs
      simp only [List.mem_cons, List.not_mem_nil, or_false] at hs
      rcases hs with rfl | rfl | rfl <;> norm_num)).2.2
